import Mathlib

/-!
Verification of the quantitative portfolio engine
(`backend/simulation/engine/monte_carlo.py` and
`backend/optimization/engine/markowitz.py`) against its natural-language
specification.

The Python code is shallowly embedded:
* vectors and matrices become `List ℚ` / `List (List ℚ)` (or ticker-indexed
  functions `String → ℝ` where the source works with pandas objects keyed by
  ticker and uses `np.sqrt`),
* the draws of `np.random.multivariate_normal` become an explicit stream
  `g : ℕ → List ℚ` together with an offset into the stream: numpy's global
  Mersenne state is exactly such a stream-plus-cursor, each call to
  `multivariate_normal(mean, cov, size)` consuming the next `size` vectors,
* Python exceptions become an explicit result type.
-/

/-- Dot product of two rational vectors, `np.dot` on equal-length 1-D arrays. -/
def dotQ (a b : List ℚ) : ℚ := (List.zipWith (· * ·) a b).sum

/-- Quadratic form `xᵀ C x` of a matrix given as a list of rows.  Used to
certify non-positive-semidefiniteness: `covQuadForm C x < 0` implies the
minimum eigenvalue of (symmetric) `C` is negative. -/
def covQuadForm (cov : List (List ℚ)) (x : List ℚ) : ℚ :=
  dotQ x (cov.map (fun row => dotQ row x))

/-- Smallest element of a rational list (`np.min`); `0` on `[]`, where the
source would raise. -/
def listMin : List ℚ → ℚ
  | [] => 0
  | x :: xs => xs.foldl min x

/-- Largest element of a rational list (`np.max`); `0` on `[]`. -/
def listMax : List ℚ → ℚ
  | [] => 0
  | x :: xs => xs.foldl max x

/-- Arithmetic mean of a rational list (`np.mean`); `0` on `[]` since `ℚ`
division by zero is zero. -/
def listMean (l : List ℚ) : ℚ := l.sum / l.length

/-- The PSD flag computed in `analyze_portfolio_correlation`
(monte_carlo.py lines 385-387): `min_eigenvalue >= -1e-8`, taking the
eigenvalue spectrum of the covariance matrix as input. -/
def is_psd_flag (eigenvalues : List ℚ) : Bool :=
  decide (-(1 / 100000000) ≤ listMin eigenvalues)

/-- Embedding of `simulate_daily_returns` (monte_carlo.py lines 7-28).
`mean_returns` and `cov_matrix` parameterize the sampled distribution and do
not otherwise enter the computation; the matrix of draws
`np.random.multivariate_normal(mean, cov, size)` is modelled by the global
draw stream `g` read starting at cursor `off`.  Each daily sample is projected
onto the weights: `portfolio_returns = samples @ weights`. -/
def simulate_daily_returns (mean_returns : List ℚ) (cov_matrix : List (List ℚ))
    (weights : List ℚ) (size : ℕ) (g : ℕ → List ℚ) (off : ℕ) : List ℚ :=
  (List.range size).map (fun t => dotQ (g (off + t)) weights)

/-- Compounding loop of `simulate_portfolio_paths` (monte_carlo.py lines
60-63): start from `initial_value`, append `path[-1] * (1 + r)` for each
simulated daily return `r`. -/
def compoundPath (v : ℚ) : List ℚ → List ℚ
  | [] => [v]
  | r :: rs => v :: compoundPath (v * (1 + r)) rs

/-- Embedding of `simulate_portfolio_paths` (monte_carlo.py lines 31-67).
The function has no seed and no horizon parameter: each path calls
`simulate_daily_returns` with the default `size=252`, consuming the next 252
vectors of the global draw stream, so path `p` reads the stream at offsets
`off + 252*p + t`.  No PSD validation is performed on `cov_matrix`. -/
def simulate_portfolio_paths (mean_returns : List ℚ) (cov_matrix : List (List ℚ))
    (weights : List ℚ) (initial_value : ℚ) (num_simulations : ℕ)
    (g : ℕ → List ℚ) (off : ℕ) : List (List ℚ) :=
  (List.range num_simulations).map (fun p =>
    compoundPath initial_value
      (simulate_daily_returns mean_returns cov_matrix weights 252 g (off + 252 * p)))

/-- `np.percentile(xs, q)` with the default linear-interpolation method:
sort ascending, take the virtual index `h = (n-1)*q/100` and interpolate
between the neighbouring entries. -/
def np_percentile (xs : List ℚ) (q : ℚ) : ℚ :=
  let s := List.insertionSort (· ≤ ·) xs
  let h : ℚ := ((s.length : ℚ) - 1) * q / 100
  s.getD (⌊h⌋).toNat 0 + (h - ⌊h⌋) * (s.getD (⌈h⌉).toNat 0 - s.getD (⌊h⌋).toNat 0)

/-- `np.maximum.accumulate path`: running maximum of the values so far. -/
def runningMaxFrom (m : ℚ) : List ℚ → List ℚ
  | [] => []
  | x :: xs => max m x :: runningMaxFrom (max m x) xs

/-- Running maximum of a path, first element the path's own first value. -/
def runningMax : List ℚ → List ℚ
  | [] => []
  | x :: xs => x :: runningMaxFrom x xs

/-- Per-path maximum drawdown (monte_carlo.py lines 94-98):
`min((path - running_max) / running_max)`. -/
def maxDrawdownOfPath (path : List ℚ) : ℚ :=
  listMin (List.zipWith (fun v m => (v - m) / m) path (runningMax path))

/-- `initial_value = portfolio_paths[0][0]` (monte_carlo.py line 80). -/
def riskInitialValue (portfolio_paths : List (List ℚ)) : ℚ :=
  (portfolio_paths.headD []).headD 0

/-- Per-path losses `-(path[-1]/initial_value - 1)` (monte_carlo.py lines
86-92). -/
def riskLosses (portfolio_paths : List (List ℚ)) : List ℚ :=
  portfolio_paths.map
    (fun path => -(path.getLastD 0 / riskInitialValue portfolio_paths - 1))

/-- Result record of `calculate_risk_metrics` (monte_carlo.py lines 120-130):
absolute currency amounts, percentages, and the worst max drawdown. -/
structure RiskMetricsResult where
  var_90 : ℚ
  var_99 : ℚ
  cvar_90 : ℚ
  cvar_99 : ℚ
  var_90_pct : ℚ
  var_99_pct : ℚ
  cvar_90_pct : ℚ
  cvar_99_pct : ℚ
  max_drawdown_pct : ℚ
  deriving Repr, DecidableEq

/-- Embedding of `calculate_risk_metrics` (monte_carlo.py lines 70-130):
VaR as the 90th/99th percentile of the losses, CVaR as the mean of the tail
`[l for l in losses if l >= var_p]` with the empty-tail fallback to VaR,
worst max drawdown across paths, absolute values scaled by
`initial_value` and percentages by 100. -/
def calculate_risk_metrics (portfolio_paths : List (List ℚ)) : RiskMetricsResult :=
  let initial_value := riskInitialValue portfolio_paths
  let losses := riskLosses portfolio_paths
  let worst_max_drawdown_pct := listMin (portfolio_paths.map maxDrawdownOfPath) * 100
  let var_90 := np_percentile losses 90
  let var_99 := np_percentile losses 99
  let tail_90 := losses.filter (fun l => var_90 ≤ l)
  let tail_99 := losses.filter (fun l => var_99 ≤ l)
  let cvar_90 := if tail_90 ≠ [] then listMean tail_90 else var_90
  let cvar_99 := if tail_99 ≠ [] then listMean tail_99 else var_99
  { var_90 := var_90 * initial_value
    var_99 := var_99 * initial_value
    cvar_90 := cvar_90 * initial_value
    cvar_99 := cvar_99 * initial_value
    var_90_pct := var_90 * 100
    var_99_pct := var_99 * 100
    cvar_90_pct := cvar_90 * 100
    cvar_99_pct := cvar_99 * 100
    max_drawdown_pct := worst_max_drawdown_pct }

/-- Eigenvalue post-processing of `analyze_portfolio_risk_factors`
(monte_carlo.py lines 304-312): scale the `np.linalg.eigh` spectrum by 10000
and sort descending. -/
def scaled_sorted_eigenvalues (eigenvalues : List ℚ) : List ℚ :=
  List.insertionSort (· ≥ ·) (eigenvalues.map (· * 10000))

/-- The `for pc_idx, eigval in enumerate(...): if eigval < 1.0: break` loop of
`analyze_portfolio_risk_factors` (lines 319-354), restricted to the 1-based
keys `pc_idx + 1` recorded in `dominant_factor_loadings`; `i` is the number of
components already processed. -/
def dominantScanFrom (i : ℕ) : List ℚ → List ℕ
  | [] => []
  | e :: rest => if e < 1 then [] else (i + 1) :: dominantScanFrom (i + 1) rest

/-- The 1-based indices of the principal components reported as dominant by
`analyze_portfolio_risk_factors`, as a function of the raw `eigh` spectrum. -/
def dominant_pc_indices (eigenvalues : List ℚ) : List ℕ :=
  dominantScanFrom 0 (scaled_sorted_eigenvalues eigenvalues)

/-- Python exception values raised by the engine: every solver-failure branch
of `maximize_sharpe_portfolio` raises `ValueError`, and an absent dictionary
key raises `KeyError`.  No other exception classes exist in the source. -/
inductive PyException where
  | valueError (msg : String)
  | keyError (key : String)
  deriving Repr, DecidableEq

/-- The Python class name of an exception value. -/
def exceptionClass : PyException → String
  | .valueError _ => "ValueError"
  | .keyError _ => "KeyError"

/-- Error classification of `maximize_sharpe_portfolio` (markowitz.py lines
191-214): whatever the failed solver status, a `ValueError` is raised, the
three branches differing only in the message. -/
def maximize_sharpe_failure (status : String) : PyException :=
  if status = "infeasible" then
    PyException.valueError
      "Cannot find portfolio with maximum Sharpe ratio. This usually means your assets have very poor risk-adjusted returns. Try including better-performing assets."
  else if status = "unbounded" then
    PyException.valueError
      "Portfolio optimization is unbounded. This indicates numerical issues with your covariance matrix. Check for assets with zero or negative variance."
  else
    PyException.valueError
      ("Portfolio optimization failed (" ++ status ++ "). Try with different assets or check your data quality.")

/-- Constraint system of the max-Sharpe QP built in
`maximize_sharpe_portfolio` (markowitz.py lines 171-182):
`mean_returns @ w - risk_free_rate/252 == 1`, `sum(w) == kappa`, `w >= 0`.
The solver reports status `"infeasible"` exactly when no `(w, kappa)`
satisfies these constraints. -/
def sharpe_qp_feasible (mean_returns : List ℚ) (risk_free_rate : ℚ)
    (w : List ℚ) (kappa : ℚ) : Prop :=
  dotQ mean_returns w - risk_free_rate / 252 = 1 ∧
    w.sum = kappa ∧ ∀ x ∈ w, 0 ≤ x

/-- Dot product over the reals, for the markowitz.py functions that feed
`np.sqrt`. -/
def dotR (a b : List ℝ) : ℝ := (List.zipWith (· * ·) a b).sum

/-- Embedding of `calculate_portfolio_metrics` (markowitz.py lines 8-41):
annualized return `sum(mean_returns * weights) * 252` and annualized
volatility `sqrt(wᵀ Σ w) * sqrt(252)`. -/
noncomputable def calculate_portfolio_metrics (weights mean_returns : List ℝ)
    (cov_matrix : List (List ℝ)) : ℝ × ℝ :=
  let portfolio_daily_return := dotR mean_returns weights
  let annualized_return := portfolio_daily_return * 252
  let portfolio_daily_variance := dotR weights (cov_matrix.map (fun row => dotR row weights))
  let portfolio_daily_volatility := Real.sqrt portfolio_daily_variance
  (annualized_return, portfolio_daily_volatility * Real.sqrt 252)

/-- Per-asset regime factors: one `{mean_factor, vol_factor}` entry of the
`regime_asset_factors` dictionary. -/
structure AssetFactors where
  mean_factor : ℝ
  vol_factor : ℝ

/-- The `regime_asset_factors` argument of `modify_portfolio_for_regime`:
per-ticker factors (`none` models a ticker absent from the dictionary) plus
the global `correlation_move_pct` key. -/
structure RegimeFactors where
  assetFactors : String → Option AssetFactors
  correlation_move_pct : ℝ

/-- The identity regime of the specification: every asset has
`mean_factor = 1`, `vol_factor = 1`, and `correlation_move_pct = 0`. -/
def identityRegime : RegimeFactors :=
  { assetFactors := fun _ => some { mean_factor := 1, vol_factor := 1 }
    correlation_move_pct := 0 }

/-- Pointwise update of a ticker-indexed matrix, `df.loc[i, j] = v`. -/
def updateMatR (c : String → String → ℝ) (i j : String) (v : ℝ) :
    String → String → ℝ :=
  fun a b => if a = i ∧ b = j then v else c a b

/-- `np.clip(x, lo, hi)`. -/
noncomputable def np_clip (x lo hi : ℝ) : ℝ := min hi (max lo x)

/-- Inner loop of the vol-factor scaling (monte_carlo.py lines 246-252):
for each column ticker `tj`, look up `regime_asset_factors[tj]["vol_factor"]`
(a `KeyError` if `tj` is absent — the loop has no membership guard) and scale
`cov[ti, tj]` by `vi * vj`. -/
def volScaleRow (factors : RegimeFactors) (vi : ℝ) (ti : String) :
    List String → (String → String → ℝ) → Except PyException (String → String → ℝ)
  | [], c => .ok c
  | tj :: rest, c =>
    match factors.assetFactors tj with
    | none => .error (PyException.keyError tj)
    | some fj => volScaleRow factors vi ti rest
        (updateMatR c ti tj (c ti tj * (vi * fj.vol_factor)))

/-- Outcome of the first loop of `modify_portfolio_for_regime` (lines
228-252): an early `return` with the current matrices when the row ticker is
missing, a propagated `KeyError` from the inner lookup, or completion. -/
inductive ScanOutcome where
  | earlyReturn (m : String → ℝ) (c : String → String → ℝ)
  | raised (e : PyException)
  | done (m : String → ℝ) (c : String → String → ℝ)

/-- First loop of `modify_portfolio_for_regime` (lines 228-252): iterate over
the covariance columns; if `ticker_i not in regime_asset_factors`, log and
return the matrices accumulated so far; otherwise scale the mean entry by
`mean_factor` and the covariance row by the vol factors. -/
def regimeScaleScan (factors : RegimeFactors) (cols : List String) :
    List String → (String → ℝ) → (String → String → ℝ) → ScanOutcome
  | [], m, c => .done m c
  | ti :: rest, m, c =>
    match factors.assetFactors ti with
    | none => .earlyReturn m c
    | some fi =>
      match volScaleRow factors fi.vol_factor ti cols c with
      | .error e => .raised e
      | .ok c' => regimeScaleScan factors cols rest
          (Function.update m ti (m ti * fi.mean_factor)) c'

/-- Standard deviations `np.sqrt(np.diag(cov))` of
`analyze_portfolio_correlation` (monte_carlo.py line 390). -/
noncomputable def stdevOf (cov : String → String → ℝ) (i : String) : ℝ :=
  Real.sqrt (cov i i)

/-- `np.outer(std_devs, std_devs)` (line 391). -/
noncomputable def stdev_outer_product (cov : String → String → ℝ) (i j : String) : ℝ :=
  stdevOf cov i * stdevOf cov j

/-- Correlation matrix `np.clip(cov / outer(std, std), -1, 1)` of
`analyze_portfolio_correlation` (lines 392-393). -/
noncomputable def correlation_matrix (cov : String → String → ℝ) (i j : String) : ℝ :=
  np_clip (cov i j / stdev_outer_product cov i j) (-1) 1

/-- Inner loop of the correlation adjustment (monte_carlo.py lines 260-268):
for every off-diagonal pair, `corr[i,j] = clip(corr[i,j] + corr[i,j] *
correlation_move_pct, -1, 1)`. -/
noncomputable def corrMoveRow (move : ℝ) (ti : String) (cols : List String)
    (c : String → String → ℝ) : String → String → ℝ :=
  cols.foldl
    (fun c tj =>
      if ti ≠ tj then updateMatR c ti tj (np_clip (c ti tj + c ti tj * move) (-1) 1)
      else c)
    c

/-- Outer loop of the correlation adjustment (lines 260-268). -/
noncomputable def corrMove (move : ℝ) (cols : List String)
    (c : String → String → ℝ) : String → String → ℝ :=
  cols.foldl (fun c ti => corrMoveRow move ti cols c) c

/-- Embedding of `modify_portfolio_for_regime` (monte_carlo.py lines
201-284): scale mean and covariance by the regime factors (with the early
return on a missing row ticker and the unguarded `KeyError` on a missing
column ticker), then run `analyze_portfolio_correlation` on the scaled
covariance, shift all off-diagonal correlations by `correlation_move_pct`,
and rebuild `new_cov = corr_matrix * stdev_outer_product`. -/
noncomputable def modify_portfolio_for_regime (cols : List String)
    (mean_returns : String → ℝ) (cov_matrix : String → String → ℝ)
    (factors : RegimeFactors) :
    Except PyException ((String → ℝ) × (String → String → ℝ)) :=
  match regimeScaleScan factors cols cols mean_returns cov_matrix with
  | .earlyReturn m c => .ok (m, c)
  | .raised e => .error e
  | .done m c =>
    let corr := corrMove factors.correlation_move_pct cols (correlation_matrix c)
    .ok (m, fun i j => corr i j * stdev_outer_product c i j)

/-! ### Helper lemmas about the simulation embedding -/

theorem getD_map_range {α : Type} (n : ℕ) (f : ℕ → α) (d : α) (p : ℕ) (hp : p < n) :
    ((List.range n).map f).getD p d = f p := by
  rw [List.getD_eq_getElem _ _ (by simpa using hp)]
  simp

theorem compoundPath_length (v : ℚ) (rs : List ℚ) :
    (compoundPath v rs).length = rs.length + 1 := by
  induction rs generalizing v with
  | nil => rfl
  | cons r rs ih => simp [compoundPath, ih]

theorem compoundPath_getD_zero (v : ℚ) (rs : List ℚ) :
    (compoundPath v rs).getD 0 0 = v := by
  cases rs <;> rfl

theorem compoundPath_getD_succ (v : ℚ) (rs : List ℚ) (t : ℕ) (ht : t < rs.length) :
    (compoundPath v rs).getD (t + 1) 0 =
      (compoundPath v rs).getD t 0 * (1 + rs.getD t 0) := by
  induction rs generalizing v t with
  | nil => simp at ht
  | cons r rs ih =>
    cases t with
    | zero =>
      simp only [compoundPath, List.getD_cons_succ, List.getD_cons_zero]
      exact compoundPath_getD_zero _ _
    | succ t => simpa [compoundPath] using ih (v * (1 + r)) t (by simpa using ht)

theorem simulate_portfolio_paths_getD (mean_returns : List ℚ)
    (cov_matrix : List (List ℚ)) (weights : List ℚ) (initial_value : ℚ)
    (num_simulations : ℕ) (g : ℕ → List ℚ) (off p : ℕ) (hp : p < num_simulations) :
    (simulate_portfolio_paths mean_returns cov_matrix weights initial_value
        num_simulations g off).getD p [] =
      compoundPath initial_value
        (simulate_daily_returns mean_returns cov_matrix weights 252 g (off + 252 * p)) :=
  getD_map_range _ _ _ _ hp

theorem simulate_daily_returns_length (mean_returns : List ℚ)
    (cov_matrix : List (List ℚ)) (weights : List ℚ) (size : ℕ) (g : ℕ → List ℚ)
    (off : ℕ) :
    (simulate_daily_returns mean_returns cov_matrix weights size g off).length = size := by
  simp [simulate_daily_returns]

theorem simulate_daily_returns_getD (mean_returns : List ℚ)
    (cov_matrix : List (List ℚ)) (weights : List ℚ) (size : ℕ) (g : ℕ → List ℚ)
    (off t : ℕ) (ht : t < size) :
    (simulate_daily_returns mean_returns cov_matrix weights size g off).getD t 0 =
      dotQ (g (off + t)) weights :=
  getD_map_range _ _ _ _ ht

/-! ### C7: shape and compounding recurrence of the simulated paths -/

/-- C7 (amended): for every mean vector, covariance matrix, weights,
initial value, path count and draw stream, `simulate_portfolio_paths` returns
exactly `num_simulations` paths, each of length `252 + 1` (the horizon is
fixed at the 252-day default - the function has no `horizon_days` parameter),
whose first element is `initial_value` and whose `(t+1)`-st element is the
`t`-th element times `1 + r_t`, where `r_t` is the sampled daily portfolio
return (the `t`-th draw of the path projected onto the weights). -/
theorem simulate_paths_shape_and_recurrence (mean_returns : List ℚ)
    (cov_matrix : List (List ℚ)) (weights : List ℚ) (initial_value : ℚ)
    (num_simulations : ℕ) (g : ℕ → List ℚ) (off : ℕ) :
    (simulate_portfolio_paths mean_returns cov_matrix weights initial_value
        num_simulations g off).length = num_simulations ∧
    ∀ p < num_simulations,
      ((simulate_portfolio_paths mean_returns cov_matrix weights initial_value
          num_simulations g off).getD p []).length = 252 + 1 ∧
      ((simulate_portfolio_paths mean_returns cov_matrix weights initial_value
          num_simulations g off).getD p []).getD 0 0 = initial_value ∧
      ∀ t < 252,
        ((simulate_portfolio_paths mean_returns cov_matrix weights initial_value
            num_simulations g off).getD p []).getD (t + 1) 0 =
          ((simulate_portfolio_paths mean_returns cov_matrix weights initial_value
              num_simulations g off).getD p []).getD t 0 *
            (1 + dotQ (g (off + 252 * p + t)) weights) := by
  refine ⟨by simp [simulate_portfolio_paths], fun p hp => ?_⟩
  rw [simulate_portfolio_paths_getD _ _ _ _ _ _ _ _ hp]
  refine ⟨by rw [compoundPath_length, simulate_daily_returns_length],
    compoundPath_getD_zero _ _, fun t ht => ?_⟩
  rw [compoundPath_getD_succ _ _ t (by rw [simulate_daily_returns_length]; exact ht),
    simulate_daily_returns_getD _ _ _ _ _ _ _ ht]

/-- Witness for C7 at a concrete input: one path, constant draw stream. -/
theorem simulate_paths_shape_and_recurrence_witness :
    (simulate_portfolio_paths [0] [[0]] [1] 1 1 (fun _ => [0]) 0).length = 1 ∧
    ((simulate_portfolio_paths [0] [[0]] [1] 1 1 (fun _ => [0]) 0).getD 0 []).getD 1 0 =
      ((simulate_portfolio_paths [0] [[0]] [1] 1 1 (fun _ => [0]) 0).getD 0 []).getD 0 0 *
        (1 + dotQ ((fun _ => ([0] : List ℚ)) (0 + 252 * 0 + 0)) [1]) :=
  ⟨(simulate_paths_shape_and_recurrence [0] [[0]] [1] 1 1 (fun _ => [0]) 0).1,
    (((simulate_paths_shape_and_recurrence [0] [[0]] [1] 1 1 (fun _ => [0]) 0).2 0
      (by norm_num)).2.2 0 (by norm_num))⟩

/-- Counterexample for C7 as stated: the claim quantifies over `horizon_days`,
but the code has no such parameter - every path has length 253
(`252 + 1` from the hard-wired `size=252` default), so for `horizon_days = 1`
the claimed length `horizon_days + 1 = 2` is wrong. -/
theorem simulate_paths_horizon_fixed_counterexample :
    ((simulate_portfolio_paths [0] [[0]] [1] 1 1 (fun _ => [0]) 0).getD 0 []).length = 253 ∧
    (253 : ℕ) ≠ 1 + 1 := by
  constructor
  · rw [simulate_portfolio_paths_getD _ _ _ _ _ _ _ _ (by norm_num),
      compoundPath_length, simulate_daily_returns_length]
  · decide

/-! ### C3: no injectable seed; sampling reads the shared global stream -/

/-- Draw stream for the C3 counterexample: the 253rd multivariate draw (the
first one consumed by a second invocation) differs from the first 252. -/
def shiftedDrawStream : ℕ → List ℚ := fun t => if t = 252 then [1] else [0]

/-- C3 (amended, part 1): the paths depend only on the 252 * num_simulations
draw vectors actually consumed from the global stream - two runs whose streams
agree on the consumed segments return identical path lists.  This is the
determinism the code actually has: it is a pure function of its arguments and
of the global-RNG cursor, not of any injectable seed. -/
theorem simulate_paths_depend_only_on_consumed_draws (mean_returns : List ℚ)
    (cov_matrix : List (List ℚ)) (weights : List ℚ) (initial_value : ℚ)
    (num_simulations : ℕ) (g1 g2 : ℕ → List ℚ) (off1 off2 : ℕ)
    (h : ∀ k < 252 * num_simulations, g1 (off1 + k) = g2 (off2 + k)) :
    simulate_portfolio_paths mean_returns cov_matrix weights initial_value
        num_simulations g1 off1 =
      simulate_portfolio_paths mean_returns cov_matrix weights initial_value
        num_simulations g2 off2 := by
  unfold simulate_portfolio_paths
  apply List.map_congr_left
  intro p hp
  rw [List.mem_range] at hp
  congr 1
  unfold simulate_daily_returns
  apply List.map_congr_left
  intro t ht
  rw [List.mem_range] at ht
  have hk : 252 * p + t < 252 * num_simulations := by omega
  have := h (252 * p + t) hk
  rw [show off1 + 252 * p + t = off1 + (252 * p + t) by ring,
    show off2 + 252 * p + t = off2 + (252 * p + t) by ring, this]

/-- Witness for C3 (amended) at a concrete input. -/
theorem simulate_paths_depend_only_on_consumed_draws_witness :
    simulate_portfolio_paths [0] [[0]] [1] 1 1 (fun _ => [0]) 0 =
      simulate_portfolio_paths [0] [[0]] [1] 1 1 (fun _ => [0]) 5 :=
  simulate_paths_depend_only_on_consumed_draws [0] [[0]] [1] 1 1 _ _ 0 5
    (fun _ _ => rfl)

/-- Counterexample for C3 as stated: there is no seed to inject - the
function's randomness is the shared global stream cursor, and two invocations
with identical arguments (the first starting at cursor 0, the second at the
cursor 252 left behind by the first) return different path lists. -/
theorem simulate_paths_no_seed_counterexample :
    simulate_portfolio_paths [0] [[0]] [1] 1 1 shiftedDrawStream 0 ≠
      simulate_portfolio_paths [0] [[0]] [1] 1 1 shiftedDrawStream 252 := by
  intro hEq
  have h1 := congrArg (fun L => (L.getD 0 []).getD 1 0) hEq
  simp only at h1
  rw [simulate_portfolio_paths_getD _ _ _ _ _ _ _ _ (by norm_num),
    simulate_portfolio_paths_getD _ _ _ _ _ _ _ _ (by norm_num),
    compoundPath_getD_succ _ _ 0 (by rw [simulate_daily_returns_length]; norm_num),
    compoundPath_getD_succ _ _ 0 (by rw [simulate_daily_returns_length]; norm_num),
    compoundPath_getD_zero, compoundPath_getD_zero,
    simulate_daily_returns_getD _ _ _ _ _ _ _ (by norm_num),
    simulate_daily_returns_getD _ _ _ _ _ _ _ (by norm_num)] at h1
  norm_num [shiftedDrawStream, dotQ] at h1

/-! ### C2: no PSD rejection before sampling -/

/-- C2 (amended): `simulate_portfolio_paths` performs no PSD validation and
raises no error - even for a covariance matrix certified non-PSD by a witness
vector with negative quadratic form, it unconditionally returns
`num_simulations` paths.  The PSD tolerance check
(`min_eigenvalue >= -1e-8`) exists only as the reported `is_psd` flag of
`analyze_portfolio_correlation`, which the simulation never consults. -/
theorem simulate_paths_no_psd_rejection (mean_returns : List ℚ)
    (cov_matrix : List (List ℚ)) (weights : List ℚ) (initial_value : ℚ)
    (num_simulations : ℕ) (g : ℕ → List ℚ) (off : ℕ)
    (h : ∃ x, covQuadForm cov_matrix x < 0) :
    (simulate_portfolio_paths mean_returns cov_matrix weights initial_value
        num_simulations g off).length = num_simulations := by
  simp [simulate_portfolio_paths]

/-- Witness for C2 (amended): the matrix `[[1,2],[2,1]]` has
`xᵀCx = -2 < 0` at `x = (1,-1)`, yet two paths are produced. -/
theorem simulate_paths_no_psd_rejection_witness :
    (∃ x, covQuadForm [[1, 2], [2, 1]] x < 0) ∧
    (simulate_portfolio_paths [0, 0] [[1, 2], [2, 1]] [1/2, 1/2] 100 2
        (fun _ => [0, 0]) 0).length = 2 :=
  ⟨⟨[1, -1], by norm_num [covQuadForm, dotQ]⟩,
    simulate_paths_no_psd_rejection [0, 0] [[1, 2], [2, 1]] [1/2, 1/2] 100 2
      (fun _ => [0, 0]) 0 ⟨[1, -1], by norm_num [covQuadForm, dotQ]⟩⟩

/-- Counterexample for C2 as stated: `[[1,2],[2,1]]` has eigenvalues `3` and
`-1` (so its minimum eigenvalue `-1` is far below the `-1e-8` tolerance, as
certified by the Rayleigh quotient `xᵀCx = -2` at `x = (1,-1)` and by the
source's own `is_psd` formula on the spectrum), yet `simulate_portfolio_paths`
returns two ordinary paths instead of raising `NonPSDCovarianceError` - an
error class that exists nowhere in the code. -/
theorem simulate_paths_nonpsd_counterexample :
    covQuadForm [[1, 2], [2, 1]] [1, -1] = -2 ∧
    is_psd_flag [3, -1] = false ∧
    (simulate_portfolio_paths [0, 0] [[1, 2], [2, 1]] [1/2, 1/2] 100 2
        (fun _ => [0, 0]) 0).length = 2 := by
  refine ⟨by norm_num [covQuadForm, dotQ], ?_, by simp [simulate_portfolio_paths]⟩
  simp only [is_psd_flag, listMin, List.foldl]
  norm_num

/-! ### Percentile lemmas (numpy linear-interpolation percentile) -/

theorem sorted_getD_mono (s : List ℚ) (hs : List.Sorted (· ≤ ·) s) {i j : ℕ}
    (hij : i ≤ j) (hj : j < s.length) : s.getD i 0 ≤ s.getD j 0 := by
  rcases eq_or_lt_of_le hij with rfl | hlt
  · exact le_refl _
  · rw [List.getD_eq_getElem s 0 (lt_trans hlt hj), List.getD_eq_getElem s 0 hj]
    exact hs.rel_get_of_lt (by simpa using hlt)

theorem interp_index_bounds (s : List ℚ) (hlen : 1 ≤ s.length) (h : ℚ)
    (h0 : 0 ≤ h) (hn : h ≤ (s.length : ℚ) - 1) :
    0 ≤ ⌊h⌋ ∧ ⌊h⌋ ≤ ⌈h⌉ ∧ ⌈h⌉ ≤ (s.length : ℤ) - 1 := by
  refine ⟨Int.floor_nonneg.mpr h0, Int.floor_le_ceil h, ?_⟩
  have : h ≤ (((s.length : ℤ) - 1 : ℤ) : ℚ) := by push_cast; exact hn
  exact Int.ceil_le.mpr this

theorem interp_lower (s : List ℚ) (hs : List.Sorted (· ≤ ·) s)
    (hlen : 1 ≤ s.length) (h : ℚ) (h0 : 0 ≤ h) (hn : h ≤ (s.length : ℚ) - 1) :
    s.getD (⌊h⌋).toNat 0 ≤
      s.getD (⌊h⌋).toNat 0 + (h - ⌊h⌋) * (s.getD (⌈h⌉).toNat 0 - s.getD (⌊h⌋).toNat 0) := by
  obtain ⟨hf0, hfc, hcn⟩ := interp_index_bounds s hlen h h0 hn
  have hij : (⌊h⌋).toNat ≤ (⌈h⌉).toNat := by omega
  have hjlt : (⌈h⌉).toNat < s.length := by omega
  have hd : s.getD (⌊h⌋).toNat 0 ≤ s.getD (⌈h⌉).toNat 0 := sorted_getD_mono s hs hij hjlt
  have hfr : 0 ≤ h - ⌊h⌋ := by have := Int.floor_le h; linarith
  nlinarith [mul_nonneg hfr (sub_nonneg.mpr hd)]

theorem interp_upper (s : List ℚ) (hs : List.Sorted (· ≤ ·) s)
    (hlen : 1 ≤ s.length) (h : ℚ) (h0 : 0 ≤ h) (hn : h ≤ (s.length : ℚ) - 1) :
    s.getD (⌊h⌋).toNat 0 + (h - ⌊h⌋) * (s.getD (⌈h⌉).toNat 0 - s.getD (⌊h⌋).toNat 0) ≤
      s.getD (⌈h⌉).toNat 0 := by
  obtain ⟨hf0, hfc, hcn⟩ := interp_index_bounds s hlen h h0 hn
  have hij : (⌊h⌋).toNat ≤ (⌈h⌉).toNat := by omega
  have hjlt : (⌈h⌉).toNat < s.length := by omega
  have hd : s.getD (⌊h⌋).toNat 0 ≤ s.getD (⌈h⌉).toNat 0 := sorted_getD_mono s hs hij hjlt
  have hfr : 0 ≤ h - ⌊h⌋ := by have := Int.floor_le h; linarith
  have hfr1 : h - ⌊h⌋ ≤ 1 := by have := Int.lt_floor_add_one h; linarith
  nlinarith [mul_le_of_le_one_left (sub_nonneg.mpr hd) hfr1]

theorem np_percentile_h_bounds (xs : List ℚ) (hne : xs ≠ []) (q : ℚ)
    (hq0 : 0 ≤ q) (hq1 : q ≤ 100) :
    0 ≤ (((List.insertionSort (· ≤ ·) xs).length : ℚ) - 1) * q / 100 ∧
      (((List.insertionSort (· ≤ ·) xs).length : ℚ) - 1) * q / 100 ≤
        ((List.insertionSort (· ≤ ·) xs).length : ℚ) - 1 := by
  have hlen : 1 ≤ (List.insertionSort (· ≤ ·) xs).length := by
    rw [(List.perm_insertionSort (· ≤ ·) xs).length_eq]
    exact List.length_pos.mpr hne
  have h1 : (1 : ℚ) ≤ ((List.insertionSort (· ≤ ·) xs).length : ℚ) := by
    exact_mod_cast hlen
  constructor
  · exact div_nonneg (mul_nonneg (by linarith) hq0) (by norm_num)
  · rw [div_le_iff₀ (by norm_num : (0:ℚ) < 100)]
    nlinarith

theorem exists_ge_np_percentile (xs : List ℚ) (hne : xs ≠ []) (q : ℚ)
    (hq0 : 0 ≤ q) (hq1 : q ≤ 100) : ∃ x ∈ xs, np_percentile xs q ≤ x := by
  have hs : List.Sorted (· ≤ ·) (List.insertionSort (· ≤ ·) xs) :=
    List.sorted_insertionSort _ xs
  have hlen : 1 ≤ (List.insertionSort (· ≤ ·) xs).length := by
    rw [(List.perm_insertionSort (· ≤ ·) xs).length_eq]
    exact List.length_pos.mpr hne
  obtain ⟨hh0, hhn⟩ := np_percentile_h_bounds xs hne q hq0 hq1
  obtain ⟨hf0, hfc, hcn⟩ := interp_index_bounds _ hlen _ hh0 hhn
  have hjlt : (⌈(((List.insertionSort (· ≤ ·) xs).length : ℚ) - 1) * q / 100⌉).toNat <
      (List.insertionSort (· ≤ ·) xs).length := by omega
  refine ⟨(List.insertionSort (· ≤ ·) xs).getD
      (⌈(((List.insertionSort (· ≤ ·) xs).length : ℚ) - 1) * q / 100⌉).toNat 0, ?_, ?_⟩
  · rw [List.getD_eq_getElem _ _ hjlt]
    exact (List.mem_insertionSort (· ≤ ·)).mp (List.getElem_mem hjlt)
  · exact interp_upper _ hs hlen _ hh0 hhn

theorem np_percentile_mono (xs : List ℚ) (hne : xs ≠ []) (q1 q2 : ℚ)
    (hq0 : 0 ≤ q1) (hq12 : q1 ≤ q2) (hq2 : q2 ≤ 100) :
    np_percentile xs q1 ≤ np_percentile xs q2 := by
  have hs : List.Sorted (· ≤ ·) (List.insertionSort (· ≤ ·) xs) :=
    List.sorted_insertionSort _ xs
  have hlen : 1 ≤ (List.insertionSort (· ≤ ·) xs).length := by
    rw [(List.perm_insertionSort (· ≤ ·) xs).length_eq]
    exact List.length_pos.mpr hne
  obtain ⟨h10, h1n⟩ := np_percentile_h_bounds xs hne q1 hq0 (le_trans hq12 hq2)
  obtain ⟨h20, h2n⟩ := np_percentile_h_bounds xs hne q2 (le_trans hq0 hq12) hq2
  set s := List.insertionSort (· ≤ ·) xs with hsdef
  set n := s.length with hndef
  set h1 : ℚ := ((n : ℚ) - 1) * q1 / 100 with h1def
  set h2 : ℚ := ((n : ℚ) - 1) * q2 / 100 with h2def
  have hn1 : (0:ℚ) ≤ (n : ℚ) - 1 := by
    have : (1:ℚ) ≤ (n : ℚ) := by exact_mod_cast hlen
    linarith
  have h12 : h1 ≤ h2 := by
    rw [h1def, h2def]
    have := mul_le_mul_of_nonneg_left hq12 hn1
    linarith
  show s.getD (⌊h1⌋).toNat 0 + (h1 - ⌊h1⌋) * (s.getD (⌈h1⌉).toNat 0 - s.getD (⌊h1⌋).toNat 0) ≤
      s.getD (⌊h2⌋).toNat 0 + (h2 - ⌊h2⌋) * (s.getD (⌈h2⌉).toNat 0 - s.getD (⌊h2⌋).toNat 0)
  obtain ⟨hf10, hfc1, hcn1⟩ := interp_index_bounds s hlen h1 h10 h1n
  obtain ⟨hf20, hfc2, hcn2⟩ := interp_index_bounds s hlen h2 h20 h2n
  have hff : ⌊h1⌋ ≤ ⌊h2⌋ := Int.floor_le_floor h12
  rcases eq_or_lt_of_le hff with heq | hlt
  · -- same floor
    rcases eq_or_lt_of_le (Int.floor_le h1) with hfe | hflt
    · -- h1 is an integer: the first value is exactly s[⌊h1⌋]
      have : h1 - ⌊h1⌋ = 0 := by linarith
      rw [this, zero_mul, add_zero, heq]
      exact interp_lower s hs hlen h2 h20 h2n
    · -- both interpolate strictly inside the same cell
      have hc1 : ⌈h1⌉ = ⌊h1⌋ + 1 := by
        have hle : ⌈h1⌉ ≤ ⌊h1⌋ + 1 := Int.ceil_le_floor_add_one h1
        have hlt' : ⌊h1⌋ < ⌈h1⌉ := by
          have : (⌊h1⌋ : ℚ) < (⌈h1⌉ : ℚ) := lt_of_lt_of_le hflt (Int.le_ceil h1)
          exact_mod_cast this
        omega
      have hflt2 : (⌊h2⌋ : ℚ) < h2 := by rw [← heq]; exact lt_of_lt_of_le hflt h12
      have hc2 : ⌈h2⌉ = ⌊h2⌋ + 1 := by
        have hle : ⌈h2⌉ ≤ ⌊h2⌋ + 1 := Int.ceil_le_floor_add_one h2
        have hlt' : ⌊h2⌋ < ⌈h2⌉ := by
          have : (⌊h2⌋ : ℚ) < (⌈h2⌉ : ℚ) := lt_of_lt_of_le hflt2 (Int.le_ceil h2)
          exact_mod_cast this
        omega
      rw [heq] at hc1 ⊢
      rw [hc1, hc2]
      have hd : s.getD (⌊h2⌋).toNat 0 ≤ s.getD ((⌊h2⌋ + 1)).toNat 0 := by
        apply sorted_getD_mono s hs (by omega)
        rw [← hc2]
        omega
      have hfloor_eq : ((⌊h1⌋ : ℚ)) = ((⌊h2⌋ : ℚ)) := by exact_mod_cast heq
      nlinarith [mul_le_mul_of_nonneg_right h12
        (sub_nonneg.mpr hd)]
  · -- the first cell ends before the second begins
    have hup := interp_upper s hs hlen h1 h10 h1n
    have hlo := interp_lower s hs hlen h2 h20 h2n
    have hcf1 : ⌈h1⌉ ≤ ⌊h1⌋ + 1 := Int.ceil_le_floor_add_one h1
    have hmid : s.getD (⌈h1⌉).toNat 0 ≤ s.getD (⌊h2⌋).toNat 0 := by
      apply sorted_getD_mono s hs (by omega)
      omega
    linarith

/-! ### Mean and tail lemmas -/

theorem mul_length_le_sum (l : List ℚ) (t : ℚ) (h : ∀ x ∈ l, t ≤ x) :
    (l.length : ℚ) * t ≤ l.sum := by
  induction l with
  | nil => simp
  | cons a l ih =>
    have ha := h a (List.mem_cons_self a l)
    have hl := ih (fun x hx => h x (List.mem_cons_of_mem a hx))
    simp only [List.sum_cons, List.length_cons]
    push_cast
    linarith

theorem sum_le_mul_length (l : List ℚ) (t : ℚ) (h : ∀ x ∈ l, x ≤ t) :
    l.sum ≤ (l.length : ℚ) * t := by
  induction l with
  | nil => simp
  | cons a l ih =>
    have ha := h a (List.mem_cons_self a l)
    have hl := ih (fun x hx => h x (List.mem_cons_of_mem a hx))
    simp only [List.sum_cons, List.length_cons]
    push_cast
    linarith

theorem le_listMean (l : List ℚ) (hne : l ≠ []) (t : ℚ) (h : ∀ x ∈ l, t ≤ x) :
    t ≤ listMean l := by
  have hlen : (0 : ℚ) < l.length := by
    have := List.length_pos.mpr hne
    exact_mod_cast this
  rw [listMean, le_div_iff₀ hlen]
  have := mul_length_le_sum l t h
  linarith

theorem filter_ge_of_le (l : List ℚ) (a b : ℚ) (hab : a ≤ b) :
    l.filter (fun x => b ≤ x) = (l.filter (fun x => a ≤ x)).filter (fun x => b ≤ x) := by
  rw [List.filter_filter]
  apply List.filter_congr
  intro x _
  by_cases h : b ≤ x
  · simp [h, le_trans hab h]
  · simp [h]

theorem listMean_filter_ge (l : List ℚ) (t : ℚ)
    (hK : l.filter (fun x => t ≤ x) ≠ []) :
    listMean l ≤ listMean (l.filter (fun x => t ≤ x)) := by
  have hperm := List.filter_append_perm (fun x => decide (t ≤ x)) l
  have hsum : (l.filter (fun x => t ≤ x)).sum +
      (l.filter (fun x => !decide (t ≤ x))).sum = l.sum := by
    rw [← List.sum_append]
    exact hperm.sum_eq
  have hlen : (l.filter (fun x => t ≤ x)).length +
      (l.filter (fun x => !decide (t ≤ x))).length = l.length := by
    rw [← List.length_append]
    exact hperm.length_eq
  have hkmem : ∀ x ∈ l.filter (fun x => t ≤ x), t ≤ x := by
    intro x hx
    have := (List.mem_filter.mp hx).2
    simpa using this
  have hrmem : ∀ x ∈ l.filter (fun x => !decide (t ≤ x)), x ≤ t := by
    intro x hx
    have := (List.mem_filter.mp hx).2
    simp only [Bool.not_eq_true', decide_eq_false_iff_not] at this
    linarith [lt_of_not_le this]
  have hk := mul_length_le_sum _ t hkmem
  have hr := sum_le_mul_length _ t hrmem
  have hkpos : (0 : ℚ) < (l.filter (fun x => t ≤ x)).length := by
    have := List.length_pos.mpr hK
    exact_mod_cast this
  have hlpos : (0 : ℚ) < l.length := by
    have hlN : (l.filter (fun x => t ≤ x)).length ≤ l.length := by omega
    have : 0 < l.length := by
      have := List.length_pos.mpr hK
      omega
    exact_mod_cast this
  rw [listMean, listMean, div_le_div_iff₀ hlpos hkpos]
  have hcast : (l.length : ℚ) = (l.filter (fun x => t ≤ x)).length +
      (l.filter (fun x => !decide (t ≤ x))).length := by
    exact_mod_cast hlen.symm
  have hsum' : l.sum = (l.filter (fun x => t ≤ x)).sum +
      (l.filter (fun x => !decide (t ≤ x))).sum := hsum.symm
  have hrl0 : (0 : ℚ) ≤ (l.filter (fun x => !decide (t ≤ x))).length := by positivity
  rw [hsum', hcast]
  nlinarith [mul_le_mul_of_nonneg_right hr hkpos.le,
    mul_le_mul_of_nonneg_left hk hrl0]

/-! ### Field equations of the embedded risk-metrics record -/

theorem crm_var_90 (paths : List (List ℚ)) :
    (calculate_risk_metrics paths).var_90 =
      np_percentile (riskLosses paths) 90 * riskInitialValue paths := rfl

theorem crm_var_99 (paths : List (List ℚ)) :
    (calculate_risk_metrics paths).var_99 =
      np_percentile (riskLosses paths) 99 * riskInitialValue paths := rfl

theorem crm_var_90_pct (paths : List (List ℚ)) :
    (calculate_risk_metrics paths).var_90_pct =
      np_percentile (riskLosses paths) 90 * 100 := rfl

theorem crm_var_99_pct (paths : List (List ℚ)) :
    (calculate_risk_metrics paths).var_99_pct =
      np_percentile (riskLosses paths) 99 * 100 := rfl

theorem crm_cvar_90 (paths : List (List ℚ)) :
    (calculate_risk_metrics paths).cvar_90 =
      (if (riskLosses paths).filter (fun l => np_percentile (riskLosses paths) 90 ≤ l) ≠ [] then
          listMean ((riskLosses paths).filter (fun l => np_percentile (riskLosses paths) 90 ≤ l))
        else np_percentile (riskLosses paths) 90) * riskInitialValue paths := rfl

theorem crm_cvar_99 (paths : List (List ℚ)) :
    (calculate_risk_metrics paths).cvar_99 =
      (if (riskLosses paths).filter (fun l => np_percentile (riskLosses paths) 99 ≤ l) ≠ [] then
          listMean ((riskLosses paths).filter (fun l => np_percentile (riskLosses paths) 99 ≤ l))
        else np_percentile (riskLosses paths) 99) * riskInitialValue paths := rfl

theorem crm_cvar_90_pct (paths : List (List ℚ)) :
    (calculate_risk_metrics paths).cvar_90_pct =
      (if (riskLosses paths).filter (fun l => np_percentile (riskLosses paths) 90 ≤ l) ≠ [] then
          listMean ((riskLosses paths).filter (fun l => np_percentile (riskLosses paths) 90 ≤ l))
        else np_percentile (riskLosses paths) 90) * 100 := rfl

theorem crm_cvar_99_pct (paths : List (List ℚ)) :
    (calculate_risk_metrics paths).cvar_99_pct =
      (if (riskLosses paths).filter (fun l => np_percentile (riskLosses paths) 99 ≤ l) ≠ [] then
          listMean ((riskLosses paths).filter (fun l => np_percentile (riskLosses paths) 99 ≤ l))
        else np_percentile (riskLosses paths) 99) * 100 := rfl

theorem riskLosses_ne_nil (paths : List (List ℚ)) (hne : paths ≠ []) :
    riskLosses paths ≠ [] := by
  intro h
  apply hne
  simpa [riskLosses] using h

theorem risk_tail_ne_nil (paths : List (List ℚ)) (hne : paths ≠ []) (q : ℚ)
    (hq0 : 0 ≤ q) (hq1 : q ≤ 100) :
    (riskLosses paths).filter (fun l => np_percentile (riskLosses paths) q ≤ l) ≠ [] := by
  obtain ⟨x, hxmem, hxge⟩ :=
    exists_ge_np_percentile _ (riskLosses_ne_nil paths hne) q hq0 hq1
  exact List.ne_nil_of_mem (List.mem_filter.mpr ⟨hxmem, by simpa using hxge⟩)

/-! ### C6: VaR/CVaR ordering invariants of the risk report -/

/-- C6: for every non-empty list of non-empty paths with positive initial
value, the risk report satisfies `VaR_99 >= VaR_90`, `CVaR_90 >= VaR_90`,
`CVaR_99 >= VaR_99` and `CVaR_99 >= CVaR_90`, in the percentage fields and in
the absolute-currency fields alike. -/
theorem risk_metrics_var_cvar_ordering (paths : List (List ℚ))
    (hne : paths ≠ []) (hpp : ∀ p ∈ paths, p ≠ [])
    (hinit : 0 < riskInitialValue paths) :
    (calculate_risk_metrics paths).var_90_pct ≤ (calculate_risk_metrics paths).var_99_pct ∧
    (calculate_risk_metrics paths).var_90_pct ≤ (calculate_risk_metrics paths).cvar_90_pct ∧
    (calculate_risk_metrics paths).var_99_pct ≤ (calculate_risk_metrics paths).cvar_99_pct ∧
    (calculate_risk_metrics paths).cvar_90_pct ≤ (calculate_risk_metrics paths).cvar_99_pct ∧
    (calculate_risk_metrics paths).var_90 ≤ (calculate_risk_metrics paths).var_99 ∧
    (calculate_risk_metrics paths).var_90 ≤ (calculate_risk_metrics paths).cvar_90 ∧
    (calculate_risk_metrics paths).var_99 ≤ (calculate_risk_metrics paths).cvar_99 ∧
    (calculate_risk_metrics paths).cvar_90 ≤ (calculate_risk_metrics paths).cvar_99 := by
  have hLne := riskLosses_ne_nil paths hne
  have hv : np_percentile (riskLosses paths) 90 ≤ np_percentile (riskLosses paths) 99 :=
    np_percentile_mono _ hLne 90 99 (by norm_num) (by norm_num) (by norm_num)
  have ht90 := risk_tail_ne_nil paths hne 90 (by norm_num) (by norm_num)
  have ht99 := risk_tail_ne_nil paths hne 99 (by norm_num) (by norm_num)
  have hc90 : np_percentile (riskLosses paths) 90 ≤
      listMean ((riskLosses paths).filter
        (fun l => np_percentile (riskLosses paths) 90 ≤ l)) :=
    le_listMean _ ht90 _ (fun x hx => by simpa using (List.mem_filter.mp hx).2)
  have hc99 : np_percentile (riskLosses paths) 99 ≤
      listMean ((riskLosses paths).filter
        (fun l => np_percentile (riskLosses paths) 99 ≤ l)) :=
    le_listMean _ ht99 _ (fun x hx => by simpa using (List.mem_filter.mp hx).2)
  have hmono : listMean ((riskLosses paths).filter
        (fun l => np_percentile (riskLosses paths) 90 ≤ l)) ≤
      listMean ((riskLosses paths).filter
        (fun l => np_percentile (riskLosses paths) 99 ≤ l)) := by
    rw [filter_ge_of_le (riskLosses paths) _ _ hv]
    apply listMean_filter_ge
    rw [← filter_ge_of_le (riskLosses paths) _ _ hv]
    exact ht99
  refine ⟨?_, ?_, ?_, ?_, ?_, ?_, ?_, ?_⟩
  · rw [crm_var_90_pct, crm_var_99_pct]
    exact mul_le_mul_of_nonneg_right hv (by norm_num)
  · rw [crm_var_90_pct, crm_cvar_90_pct, if_pos ht90]
    exact mul_le_mul_of_nonneg_right hc90 (by norm_num)
  · rw [crm_var_99_pct, crm_cvar_99_pct, if_pos ht99]
    exact mul_le_mul_of_nonneg_right hc99 (by norm_num)
  · rw [crm_cvar_90_pct, crm_cvar_99_pct, if_pos ht90, if_pos ht99]
    exact mul_le_mul_of_nonneg_right hmono (by norm_num)
  · rw [crm_var_90, crm_var_99]
    exact mul_le_mul_of_nonneg_right hv hinit.le
  · rw [crm_var_90, crm_cvar_90, if_pos ht90]
    exact mul_le_mul_of_nonneg_right hc90 hinit.le
  · rw [crm_var_99, crm_cvar_99, if_pos ht99]
    exact mul_le_mul_of_nonneg_right hc99 hinit.le
  · rw [crm_cvar_90, crm_cvar_99, if_pos ht90, if_pos ht99]
    exact mul_le_mul_of_nonneg_right hmono hinit.le

/-- Witness for C6 at the concrete two-path input `[[100, 90], [100, 110]]`. -/
theorem risk_metrics_var_cvar_ordering_witness :
    (calculate_risk_metrics [[100, 90], [100, 110]]).cvar_90 ≤
      (calculate_risk_metrics [[100, 90], [100, 110]]).cvar_99 :=
  (risk_metrics_var_cvar_ordering [[100, 90], [100, 110]] (by simp)
    (by intro p hp; simp only [List.mem_cons, List.not_mem_nil, or_false] at hp; rcases hp with rfl | rfl <;> simp)
    (by norm_num [riskInitialValue])).2.2.2.2.2.2.2

/-! ### C10: the CVaR tail is never empty -/

/-- C10: for every non-empty list of non-empty paths with positive initial
value, the tail `[l for l in losses if l >= var_p]` is non-empty for
p = 90 and p = 99 (the maximum loss always reaches the percentile), so the
`CVaR_p := VaR_p` fallback branch is not taken and the reported CVaR equals
the mean of the tail losses. -/
theorem risk_metrics_cvar_tail_never_empty (paths : List (List ℚ))
    (hne : paths ≠ []) (hpp : ∀ p ∈ paths, p ≠ [])
    (hinit : 0 < riskInitialValue paths) :
    (riskLosses paths).filter (fun l => np_percentile (riskLosses paths) 90 ≤ l) ≠ [] ∧
    (riskLosses paths).filter (fun l => np_percentile (riskLosses paths) 99 ≤ l) ≠ [] ∧
    (calculate_risk_metrics paths).cvar_90_pct =
      listMean ((riskLosses paths).filter
        (fun l => np_percentile (riskLosses paths) 90 ≤ l)) * 100 ∧
    (calculate_risk_metrics paths).cvar_99_pct =
      listMean ((riskLosses paths).filter
        (fun l => np_percentile (riskLosses paths) 99 ≤ l)) * 100 := by
  have ht90 := risk_tail_ne_nil paths hne 90 (by norm_num) (by norm_num)
  have ht99 := risk_tail_ne_nil paths hne 99 (by norm_num) (by norm_num)
  exact ⟨ht90, ht99, by rw [crm_cvar_90_pct, if_pos ht90], by rw [crm_cvar_99_pct, if_pos ht99]⟩

/-- Witness for C10 at the concrete two-path input. -/
theorem risk_metrics_cvar_tail_never_empty_witness :
    (riskLosses [[100, 90], [100, 110]]).filter
      (fun l => np_percentile (riskLosses [[100, 90], [100, 110]]) 90 ≤ l) ≠ [] :=
  (risk_metrics_cvar_tail_never_empty [[100, 90], [100, 110]] (by simp)
    (by intro p hp; simp only [List.mem_cons, List.not_mem_nil, or_false] at hp; rcases hp with rfl | rfl <;> simp)
    (by norm_num [riskInitialValue])).1

/-! ### C8: which principal components are reported as dominant -/

theorem dominantScanFrom_mem (s : List ℚ) (hs : List.Sorted (· ≥ ·) s) (i k : ℕ) :
    k ∈ dominantScanFrom i s ↔
      ∃ m, k = i + m + 1 ∧ m < s.length ∧ 1 ≤ s.getD m 0 := by
  induction s generalizing i with
  | nil => simp [dominantScanFrom]
  | cons e rest ih =>
    simp only [dominantScanFrom]
    by_cases he : e < 1
    · rw [if_pos he]
      simp only [List.not_mem_nil, false_iff]
      rintro ⟨m, hk, hm, hge⟩
      have hle : (e :: rest).getD m 0 ≤ e := by
        cases m with
        | zero => simp
        | succ m =>
          have hmlt : m < rest.length := by simpa using hm
          have hmem : rest.getD m 0 ∈ rest := by
            rw [List.getD_eq_getElem _ _ hmlt]
            exact List.getElem_mem hmlt
          simpa using List.rel_of_sorted_cons hs _ hmem
      linarith
    · rw [if_neg he]
      push_neg at he
      simp only [List.mem_cons]
      constructor
      · rintro (rfl | hk)
        · exact ⟨0, by omega, by simp, by simpa using he⟩
        · obtain ⟨m, rfl, hm, hge⟩ := (ih hs.of_cons (i + 1)).mp hk
          exact ⟨m + 1, by omega, by simpa using hm, by simpa using hge⟩
      · rintro ⟨m, rfl, hm, hge⟩
        cases m with
        | zero => left; omega
        | succ m =>
          right
          exact (ih hs.of_cons (i + 1)).mpr
            ⟨m, by omega, by simpa using hm, by simpa using hge⟩

/-- C8 (amended): a principal component is reported as dominant if and only
if its scaled eigenvalue is at least `1.0` (the loop breaks on
`eigval < 1.0`, so a component whose scaled eigenvalue is exactly `1.0` is
dominant too - the claim's strict `> 1.0` is off by the boundary case);
because the list is pre-sorted descending, the dominant set is exactly the
maximal prefix of components whose scaled eigenvalue is `>= 1.0`. -/
theorem dominant_pc_indices_iff (eigenvalues : List ℚ) (k : ℕ) :
    k ∈ dominant_pc_indices eigenvalues ↔
      1 ≤ k ∧ k ≤ (scaled_sorted_eigenvalues eigenvalues).length ∧
        1 ≤ (scaled_sorted_eigenvalues eigenvalues).getD (k - 1) 0 := by
  have hs : List.Sorted (· ≥ ·) (scaled_sorted_eigenvalues eigenvalues) :=
    List.sorted_insertionSort _ _
  rw [dominant_pc_indices, dominantScanFrom_mem _ hs 0 k]
  constructor
  · rintro ⟨m, rfl, hm, hge⟩
    exact ⟨by omega, by omega, by simpa using hge⟩
  · rintro ⟨h1, h2, h3⟩
    exact ⟨k - 1, by omega, by omega, h3⟩

/-- Counterexample for C8 as stated: a raw eigenvalue of `0.0001` scales to
exactly `1.0`, which is not strictly greater than `1.0`, yet the loop does
not break on it and PC 1 is reported as dominant. -/
theorem dominant_threshold_counterexample :
    dominant_pc_indices [1/10000] = [1] ∧
    scaled_sorted_eigenvalues [1/10000] = [1] ∧ ¬ (1 : ℚ) < 1 := by
  have hsc : scaled_sorted_eigenvalues [1/10000] = [1] := by
    norm_num [scaled_sorted_eigenvalues, List.insertionSort, List.orderedInsert]
  refine ⟨?_, hsc, by norm_num⟩
  rw [dominant_pc_indices, hsc]
  norm_num [dominantScanFrom]

/-! ### C5: solver-outcome classification of the max-Sharpe optimization -/

theorem dotQ_nonpos (a : List ℚ) (ha : ∀ m ∈ a, m ≤ 0) :
    ∀ b : List ℚ, (∀ x ∈ b, 0 ≤ x) → dotQ a b ≤ 0 := by
  induction a with
  | nil => intro b _; simp [dotQ]
  | cons m a ih =>
    intro b hb
    cases b with
    | nil => simp [dotQ]
    | cons x b =>
      have h1 : m ≤ 0 := ha m (List.mem_cons_self m a)
      have h2 : 0 ≤ x := hb x (List.mem_cons_self x b)
      have h3 : dotQ a b ≤ 0 :=
        ih (fun y hy => ha y (List.mem_cons_of_mem m hy)) b
          (fun y hy => hb y (List.mem_cons_of_mem x hy))
      have h4 : m * x ≤ 0 := mul_nonpos_of_nonpos_of_nonneg h1 h2
      simp only [dotQ, List.zipWith_cons_cons, List.sum_cons] at h3 ⊢
      linarith

/-- C5 (amended): the constraint system `mean·w - rf/252 = 1`, `sum w = κ`,
`w ≥ 0` that the code actually builds is infeasible whenever every asset's
mean return is non-positive (not merely below the risk-free rate: because the
code subtracts the risk-free rate from the portfolio return instead of from
each asset, any positive asset mean keeps the system feasible); and every
failed solver status - "infeasible", "unbounded", or anything else - is
raised as the same exception class `ValueError`, the three branches differing
only in the message, `SolverInfeasibleError`/`SolverUnboundedError`/
`SolverTimeoutError` existing nowhere in the code. -/
theorem max_sharpe_failure_classification (mean_returns : List ℚ)
    (risk_free_rate : ℚ) (hm : ∀ m ∈ mean_returns, m ≤ 0)
    (hrf : 0 ≤ risk_free_rate) :
    (¬ ∃ w kappa, sharpe_qp_feasible mean_returns risk_free_rate w kappa) ∧
    ∀ status, exceptionClass (maximize_sharpe_failure status) = "ValueError" := by
  constructor
  · rintro ⟨w, kappa, hdot, hsum, hw⟩
    have hd : dotQ mean_returns w ≤ 0 := dotQ_nonpos mean_returns hm w hw
    have hq : (0 : ℚ) ≤ risk_free_rate / 252 := by positivity
    linarith
  · intro status
    unfold maximize_sharpe_failure
    split_ifs <;> rfl

/-- Witness for C5 (amended) at a concrete input with a negative mean. -/
theorem max_sharpe_failure_classification_witness :
    (¬ ∃ w kappa, sharpe_qp_feasible [-(1/100)] (2/100) w kappa) ∧
    exceptionClass (maximize_sharpe_failure "infeasible") = "ValueError" :=
  ⟨(max_sharpe_failure_classification [-(1/100)] (2/100)
      (by intro m hm; rw [List.mem_singleton] at hm; rw [hm]; norm_num)
      (by norm_num)).1,
    (max_sharpe_failure_classification [-(1/100)] (2/100)
      (by intro m hm; rw [List.mem_singleton] at hm; rw [hm]; norm_num)
      (by norm_num)).2 "infeasible"⟩

/-- Counterexample for C5 as stated: with two assets whose daily mean
`0.00005` is strictly below the daily risk-free rate `0.02/252 ≈ 0.0000794`,
the QP the code builds is still feasible (witness portfolio shown), so the
solver cannot report "infeasible" there; and even when the solver does report
"infeasible" or "unbounded" or any other failure, the raised exception is the
one generic class `ValueError` - no `SolverInfeasibleError` exists. -/
theorem max_sharpe_infeasible_counterexample :
    (∀ m ∈ [(1:ℚ)/20000, 1/20000], m < (2/100)/252) ∧
    sharpe_qp_feasible [1/20000, 1/20000] (2/100) [1260100/63, 0] (1260100/63) ∧
    exceptionClass (maximize_sharpe_failure "infeasible") = "ValueError" ∧
    exceptionClass (maximize_sharpe_failure "infeasible") =
      exceptionClass (maximize_sharpe_failure "unbounded") ∧
    exceptionClass (maximize_sharpe_failure "infeasible") =
      exceptionClass (maximize_sharpe_failure "max_iter_reached") := by
  refine ⟨?_, ⟨?_, ?_, ?_⟩, ?_, ?_, ?_⟩
  · intro m hm
    rcases List.mem_cons.mp hm with rfl | hm'
    · norm_num
    · rw [List.mem_singleton] at hm'
      rw [hm']
      norm_num
  · norm_num [dotQ]
  · norm_num
  · intro x hx
    rcases List.mem_cons.mp hx with rfl | hx'
    · norm_num
    · rw [List.mem_singleton] at hx'
      rw [hx']
  · simp [maximize_sharpe_failure, exceptionClass]
  · simp [maximize_sharpe_failure, exceptionClass]
  · simp [maximize_sharpe_failure, exceptionClass]

/-! ### C9: the concrete portfolio-metrics scenario -/

/-- C9 (amended): on weights `[0.6, 0.4]`, means `[0.001, 0.002]` and the
given covariance, `calculate_portfolio_metrics` returns annualized return
exactly `(0.6*0.001 + 0.4*0.002) * 252 = 0.3528` (the spec's `0.4032` would
require the weights swapped) and annualized volatility
`sqrt(0.36*0.0004 + 0.16*0.0009 + 2*0.24*0.0001) * sqrt(252)`. -/
theorem portfolio_metrics_scenario :
    (calculate_portfolio_metrics [0.6, 0.4] [0.001, 0.002]
        [[0.0004, 0.0001], [0.0001, 0.0009]]).1 = 0.3528 ∧
    (calculate_portfolio_metrics [0.6, 0.4] [0.001, 0.002]
        [[0.0004, 0.0001], [0.0001, 0.0009]]).2 =
      Real.sqrt (0.36 * 0.0004 + 0.16 * 0.0009 + 2 * 0.24 * 0.0001) *
        Real.sqrt 252 := by
  constructor
  · norm_num [calculate_portfolio_metrics, dotR]
  · show Real.sqrt (dotR [0.6, 0.4]
        ([[(0.0004 : ℝ), 0.0001], [0.0001, 0.0009]].map
          (fun row => dotR row [0.6, 0.4]))) * Real.sqrt 252 = _
    have hvar : dotR [0.6, 0.4]
        ([[(0.0004 : ℝ), 0.0001], [0.0001, 0.0009]].map
          (fun row => dotR row [0.6, 0.4])) =
        0.36 * 0.0004 + 0.16 * 0.0009 + 2 * 0.24 * 0.0001 := by
      norm_num [dotR]
    rw [hvar]

/-- Counterexample for C9 as stated: the annualized return at the scenario
input is `0.3528`, which is `0.0504` away from the claimed `≈ 0.4032` - far
beyond numerical tolerance (the claim's own formula
`sum(mean·weights)*252 = (0.0006 + 0.0008)*252` gives `0.3528`). -/
theorem portfolio_metrics_return_counterexample :
    (calculate_portfolio_metrics [0.6, 0.4] [0.001, 0.002]
        [[0.0004, 0.0001], [0.0001, 0.0009]]).1 = 0.3528 ∧
    |(0.3528 : ℝ) - 0.4032| = 0.0504 := by
  constructor
  · norm_num [calculate_portfolio_metrics, dotR]
  · have h : (0.3528 : ℝ) - 0.4032 = -(0.0504) := by norm_num
    rw [h, abs_neg, abs_of_nonneg (by norm_num)]

/-! ### Regime-transform lemmas -/

theorem updateMatR_self (c : String → String → ℝ) (i j : String) :
    updateMatR c i j (c i j) = c := by
  funext a b
  unfold updateMatR
  split_ifs with h
  · rw [h.1, h.2]
  · rfl

theorem volScaleRow_identity (ti : String) (l : List String)
    (c : String → String → ℝ) :
    volScaleRow identityRegime 1 ti l c = .ok c := by
  induction l generalizing c with
  | nil => rfl
  | cons tj rest ih =>
    simp only [volScaleRow, identityRegime]
    rw [show c ti tj * (1 * 1) = c ti tj by ring, updateMatR_self]
    exact ih c

theorem regimeScaleScan_identity (cols rest : List String) (m : String → ℝ)
    (c : String → String → ℝ) :
    regimeScaleScan identityRegime cols rest m c = ScanOutcome.done m c := by
  induction rest generalizing m c with
  | nil => rfl
  | cons ti rest ih =>
    have hAf : identityRegime.assetFactors ti =
        some { mean_factor := 1, vol_factor := 1 } := rfl
    have hrow := volScaleRow_identity ti cols c
    calc regimeScaleScan identityRegime cols (ti :: rest) m c
        = regimeScaleScan identityRegime cols rest
            (Function.update m ti (m ti * 1)) c := by
          simp only [regimeScaleScan, hAf, hrow]
      _ = ScanOutcome.done m c := by
          rw [mul_one, Function.update_eq_self]
          exact ih m c

theorem np_clip_of_mem (x : ℝ) (h1 : -1 ≤ x) (h2 : x ≤ 1) :
    np_clip x (-1) 1 = x := by
  unfold np_clip
  rw [max_eq_right h1, min_eq_right h2]

theorem np_clip_mem (x lo hi : ℝ) (h : lo ≤ hi) :
    lo ≤ np_clip x lo hi ∧ np_clip x lo hi ≤ hi := by
  unfold np_clip
  exact ⟨le_min h (le_max_left lo x), min_le_left hi _⟩

theorem correlation_matrix_mem (cov : String → String → ℝ) (i j : String) :
    -1 ≤ correlation_matrix cov i j ∧ correlation_matrix cov i j ≤ 1 :=
  np_clip_mem _ _ _ (by norm_num)

theorem corrMoveRow_zero (ti : String) (cols : List String)
    (c : String → String → ℝ) (hc : ∀ i j, -1 ≤ c i j ∧ c i j ≤ 1) :
    corrMoveRow 0 ti cols c = c := by
  unfold corrMoveRow
  induction cols with
  | nil => rfl
  | cons tj rest ih =>
    rw [List.foldl_cons]
    have hstep : (if ti ≠ tj then
        updateMatR c ti tj (np_clip (c ti tj + c ti tj * 0) (-1) 1) else c) = c := by
      split_ifs with hij
      · rw [mul_zero, add_zero, np_clip_of_mem _ (hc ti tj).1 (hc ti tj).2,
          updateMatR_self]
      · rfl
    rw [hstep, ih]

theorem corrMove_zero (cols : List String) (c : String → String → ℝ)
    (hc : ∀ i j, -1 ≤ c i j ∧ c i j ≤ 1) :
    corrMove 0 cols c = c := by
  unfold corrMove
  have : ∀ l : List String,
      List.foldl (fun c ti => corrMoveRow 0 ti cols c) c l = c := by
    intro l
    induction l with
    | nil => rfl
    | cons ti rest ih => rw [List.foldl_cons, corrMoveRow_zero ti cols c hc, ih]
  exact this cols

/-! ### C4: the identity regime -/

/-- C4 (amended): for every universe, mean vector and covariance matrix with
strictly positive diagonal whose entries also satisfy the Cauchy-Schwarz
bound `cov[i,j]² ≤ cov[i,i]*cov[j,j]` (true of every PSD covariance matrix -
without it the `clip` to `[-1, 1]` truncates correlations above 1 and the
rebuild changes the matrix), applying the identity regime
(`mean_factor = vol_factor = 1`, `correlation_move_pct = 0`) returns the mean
vector unchanged and the covariance matrix unchanged on the universe. -/
theorem apply_regime_identity (cols : List String) (mean_returns : String → ℝ)
    (cov : String → String → ℝ)
    (hdiag : ∀ i ∈ cols, 0 < cov i i)
    (hcs : ∀ i ∈ cols, ∀ j ∈ cols, cov i j ^ 2 ≤ cov i i * cov j j) :
    ∃ m c, modify_portfolio_for_regime cols mean_returns cov identityRegime =
        Except.ok (m, c) ∧
      m = mean_returns ∧ ∀ i ∈ cols, ∀ j ∈ cols, c i j = cov i j := by
  unfold modify_portfolio_for_regime
  rw [regimeScaleScan_identity]
  refine ⟨mean_returns, _, rfl, rfl, ?_⟩
  intro i hi j hj
  have hmove : identityRegime.correlation_move_pct = 0 := rfl
  rw [hmove, corrMove_zero cols _ (fun i j => correlation_matrix_mem cov i j)]
  simp only [correlation_matrix, stdev_outer_product, stdevOf]
  have hii := hdiag i hi
  have hjj := hdiag j hj
  have hsi : 0 < Real.sqrt (cov i i) := Real.sqrt_pos.mpr hii
  have hsj : 0 < Real.sqrt (cov j j) := Real.sqrt_pos.mpr hjj
  have hdpos : 0 < Real.sqrt (cov i i) * Real.sqrt (cov j j) := mul_pos hsi hsj
  have hd2 : (Real.sqrt (cov i i) * Real.sqrt (cov j j)) ^ 2 = cov i i * cov j j := by
    rw [mul_pow, Real.sq_sqrt hii.le, Real.sq_sqrt hjj.le]
  have habs : |cov i j| ≤ Real.sqrt (cov i i) * Real.sqrt (cov j j) := by
    have h2 := hcs i hi j hj
    nlinarith [sq_abs (cov i j), abs_nonneg (cov i j)]
  have hq := abs_le.mp habs
  have hmem : -1 ≤ cov i j / (Real.sqrt (cov i i) * Real.sqrt (cov j j)) ∧
      cov i j / (Real.sqrt (cov i i) * Real.sqrt (cov j j)) ≤ 1 := by
    rw [← abs_le, abs_div, abs_of_pos hdpos, div_le_one hdpos]
    exact habs
  rw [np_clip_of_mem _ hmem.1 hmem.2, div_mul_cancel₀ _ hdpos.ne']

/-- Witness for C4 (amended) on the one-asset universe with unit variance. -/
theorem apply_regime_identity_witness :
    ∃ m c, modify_portfolio_for_regime ["A"] (fun _ => (0 : ℝ))
        (fun _ _ => (1 : ℝ)) identityRegime = Except.ok (m, c) ∧
      m = (fun _ => (0 : ℝ)) ∧
      ∀ i ∈ ["A"], ∀ j ∈ ["A"], c i j = (fun _ _ => (1 : ℝ)) i j :=
  apply_regime_identity ["A"] (fun _ => 0) (fun _ _ => 1)
    (fun _ _ => by norm_num) (fun _ _ _ _ => by norm_num)

/-- The concrete covariance used in the C4 counterexample: unit variances but
an off-diagonal entry of 5, violating `cov[i,j]² ≤ cov[i,i]*cov[j,j]` while
keeping the diagonal strictly positive. -/
def covPair : String → String → ℝ := fun i j => if i = j then 1 else 5

/-- The concrete mean vector used by the regime counterexamples. -/
def meanPair : String → ℝ := fun _ => 0

/-- Counterexample for C4 as stated: `covPair` has strictly positive diagonal,
yet the identity regime is not a no-op on it - the rebuilt entry
`clip(5/1, -1, 1) * 1 = 1` differs from the original 5, because the claim
omitted the PSD/Cauchy-Schwarz hypothesis. -/
theorem apply_regime_identity_counterexample :
    (0 : ℝ) < covPair "A" "A" ∧ (0 : ℝ) < covPair "B" "B" ∧
    ∃ m c, modify_portfolio_for_regime ["A", "B"] meanPair covPair identityRegime =
        Except.ok (m, c) ∧
      c "A" "B" = 1 ∧ covPair "A" "B" = 5 ∧ (1 : ℝ) ≠ 5 := by
  refine ⟨by norm_num [covPair], by norm_num [covPair], ?_⟩
  unfold modify_portfolio_for_regime
  rw [regimeScaleScan_identity]
  refine ⟨meanPair, _, rfl, ?_, by rw [covPair]; exact if_neg (by decide), by norm_num⟩
  have hmove : identityRegime.correlation_move_pct = 0 := rfl
  rw [hmove, corrMove_zero ["A", "B"] _ (fun i j => correlation_matrix_mem covPair i j)]
  simp only [correlation_matrix, stdev_outer_product, stdevOf]
  rw [show covPair "A" "A" = 1 by norm_num [covPair],
    show covPair "B" "B" = 1 by norm_num [covPair],
    show covPair "A" "B" = 5 by rw [covPair]; exact if_neg (by decide), Real.sqrt_one]
  rw [show (5 : ℝ) / (1 * 1) = 5 by norm_num]
  rw [show np_clip 5 (-1) 1 = 1 by
    rw [np_clip, max_eq_right (by norm_num : (-1:ℝ) ≤ 5), min_eq_left (by norm_num)]]
  norm_num

/-! ### C1: behavior on a regime map missing a ticker -/

/-- Regime map covering only ticker "B": the first universe ticker "A" is
missing. -/
noncomputable def factorsOnlyB : RegimeFactors :=
  { assetFactors := fun t =>
      if t = "B" then some { mean_factor := 2, vol_factor := 3 } else none
    correlation_move_pct := 1/10 }

/-- Regime map covering only ticker "A": the second universe ticker "B" is
missing. -/
noncomputable def factorsOnlyA : RegimeFactors :=
  { assetFactors := fun t =>
      if t = "A" then some { mean_factor := 2, vol_factor := 3 } else none
    correlation_move_pct := 1/10 }

/-- C1 (evaluation of the code at the failing inputs): on the universe
`["A", "B"]`, a regime map missing the first ticker makes
`modify_portfolio_for_regime` log and return the original mean/covariance
pair unchanged (a normal return, no exception), while a map missing a later
ticker raises `KeyError` from the unguarded inner lookup
`regime_asset_factors[ticker_j]["vol_factor"]`.  In neither case is a
`MissingRegimeFactorError` raised - no such class exists in the code. -/
theorem apply_regime_missing_ticker_behavior :
    modify_portfolio_for_regime ["A", "B"] meanPair covPair factorsOnlyB =
      Except.ok (meanPair, covPair) ∧
    modify_portfolio_for_regime ["A", "B"] meanPair covPair factorsOnlyA =
      Except.error (PyException.keyError "B") := by
  constructor
  · unfold modify_portfolio_for_regime
    have hscan : regimeScaleScan factorsOnlyB ["A", "B"] ["A", "B"] meanPair covPair =
        ScanOutcome.earlyReturn meanPair covPair := by
      have hA : factorsOnlyB.assetFactors "A" = none := by
        simp only [factorsOnlyB]
        exact if_neg (by decide)
      simp only [regimeScaleScan, hA]
    rw [hscan]
  · unfold modify_portfolio_for_regime
    have hA : factorsOnlyA.assetFactors "A" =
        some { mean_factor := 2, vol_factor := 3 } := by
      simp [factorsOnlyA]
    have hB : factorsOnlyA.assetFactors "B" = none := by
      simp only [factorsOnlyA]
      exact if_neg (by decide)
    have hrow : volScaleRow factorsOnlyA 3 "A" ["A", "B"] covPair =
        Except.error (PyException.keyError "B") := by
      simp only [volScaleRow, hA, hB]
    have hscan : regimeScaleScan factorsOnlyA ["A", "B"] ["A", "B"] meanPair covPair =
        ScanOutcome.raised (PyException.keyError "B") := by
      simp only [regimeScaleScan, hA, hrow]
    rw [hscan]
